import Mathlib

/-!
Verification development for the underlog report system: a shallow embedding
of the tokenizer (src/static/tokenizer.js) and of the paginated SVG layout
engine (src/static/svg.js), together with proofs about the properties the
specification states for them.

All definitions are translated from the JavaScript source.  Strings are
manipulated through their character lists so that every definition reduces
inside the kernel; JS `undefined` at an out-of-bounds string index is
modelled with `Option Char`.
-/

/-! ## Character and string utilities (JS string primitives) -/

/-- JS `text[i]` / `text.charAt(i)`: `none` models `undefined` (out of bounds). -/
def jsAt (cs : List Char) (i : Nat) : Option Char := cs.get? i

/-- Pack a character list back into a string. -/
def strOf (cs : List Char) : String := ⟨cs⟩

/-- Whitespace recognised by JS `String.prototype.trim` (the subset that can
occur in a single input line). -/
def isWsChar (c : Char) : Bool := c = ' ' || c = '\t' || c = '\r' || c = '\n'

/-- Drop leading whitespace. -/
def dropWs : List Char → List Char
  | [] => []
  | c :: cs => if isWsChar c then dropWs cs else c :: cs

/-- JS `s.trim()` on the character list. -/
def trimChars (cs : List Char) : List Char :=
  (dropWs (dropWs cs.reverse).reverse)

/-- JS `s.trim()`. -/
def jsTrim (s : String) : String := strOf (trimChars s.data)

/-- JS `s.startsWith(p)` for a literal `p`. -/
def startsWithChars (p : List Char) (cs : List Char) : Bool :=
  match p, cs with
  | [], _ => true
  | _ :: _, [] => false
  | p :: ps, c :: cs => p = c && startsWithChars ps cs

/-- JS `line.startsWith(p)`. -/
def jsStartsWith (s p : String) : Bool := startsWithChars p.data s.data

/-- Count how many times `ch` is repeated at the start of the text
(`Tokenizer.count_first_chars`). -/
def countLeading (cs : List Char) (ch : Char) : Nat :=
  match cs with
  | [] => 0
  | c :: cs => if c = ch then countLeading cs ch + 1 else 0

/-- Split a character list at newline characters (JS `text.split("\n")`). -/
def splitNl (acc : List Char) : List Char → List String
  | [] => [strOf acc.reverse]
  | c :: cs => if c = '\n' then strOf acc.reverse :: splitNl [] cs else splitNl (c :: acc) cs

/-- JS `text.split("\n")` as a list of lines. -/
def jsLines (s : String) : List String := splitNl [] s.data

/-- Leading-decimal-digit value of a string, modelling `parseInt(s, 10)` on the
digit strings the tokenizer produces; non-digit input maps to 0. -/
def decDigits (acc : Nat) : List Char → Nat
  | [] => acc
  | c :: cs => if c.isDigit then decDigits (acc * 10 + (c.toNat - 48)) cs else acc

/-- JS `parseInt(node.attributes.level || '1', 10)` as used by the layout
engine: a missing or empty attribute defaults to `'1'`. -/
def jsLevelOf (o : Option String) : Nat :=
  match o with
  | none => 1
  | some s => if s = "" then 1 else decDigits 0 s.data

/-! ## The Node tree (tokenizer.js `{ name, attributes, children }`) -/

/-- A tokenizer AST node: `{ name, attributes, children }`.  Attributes are an
association list of string pairs (insertion order preserved, first binding
wins on lookup). -/
inductive Node where
  | mk (name : String) (attributes : List (String × String)) (children : List Node)

/-- Node name accessor. -/
def Node.name : Node → String
  | .mk n _ _ => n

/-- Node attributes accessor. -/
def Node.attrs : Node → List (String × String)
  | .mk _ a _ => a

/-- Node children accessor. -/
def Node.children : Node → List Node
  | .mk _ _ c => c

/-- JS `node.attributes.k`: `none` models an absent attribute. -/
def attrOf (n : Node) (k : String) : Option String :=
  (n.attrs.find? (fun p => p.1 = k)).map Prod.snd

/-- JS `node.children?.[0]?.attributes?.content || ''`. -/
def contentOf (n : Node) : String :=
  match n.children with
  | [] => ""
  | c :: _ =>
    match attrOf c "content" with
    | none => ""
    | some s => s

/-! ## Line classification (Tokenizer.is_* predicates) -/

/-- `Tokenizer.is_heading`: `line.charAt(0) === '#'`. -/
def is_heading (l : String) : Bool := jsAt l.data 0 == some '#'

/-- `Tokenizer.is_image`: `line.startsWith('image::')`. -/
def is_image (l : String) : Bool := jsStartsWith l "image::"

/-- `Tokenizer.is_code_block`: the line starts with three backticks. -/
def is_code_block (l : String) : Bool := jsStartsWith l "```"

/-- `Tokenizer.is_table_start`: `line.startsWith('[') || line === '|==='`. -/
def is_table_start (l : String) : Bool := jsStartsWith l "[" || l == "|==="

/-- `Tokenizer.is_list_item`: first char is `'-'` or `'.'`. -/
def is_list_item (l : String) : Bool := jsAt l.data 0 == some '-' || jsAt l.data 0 == some '.'

/-- Blank-line test used by `Tokenizer.tokenize` and `tokenize_paragraph`. -/
def is_blank (l : String) : Bool := jsTrim l == ""

/-- Shorthand for a `text` leaf node carrying its payload as an attribute. -/
def textNode (s : String) : Node := Node.mk "text" [("content", s)] []

/-! ## Tokenizer rules.  Each rule consumes lines from the front of the
remaining-line list (the JS code advances a cursor `pos`; the returned list is
`lines` from the new cursor on). -/

/-- `Tokenizer.tokenize_heading`. -/
def tokenize_heading (ls : List String) : Node × List String :=
  match ls with
  | [] => (Node.mk "heading" [] [], [])
  | l :: rest =>
    if jsStartsWith l "#@" || jsStartsWith l "#%" then
      let text := jsTrim (strOf (l.data.drop 2))
      (Node.mk "heading" [("numbered", "false"), ("type", strOf ((l.data.drop 1).take 1))]
        [textNode text], rest)
    else
      let level := countLeading l.data '#'
      let text := jsTrim (strOf (l.data.drop level))
      (Node.mk "heading" [("numbered", "true"), ("level", Nat.repr level)] [textNode text], rest)

/-- First index of `ch` in a character list (JS `indexOf`, relative form). -/
def idxOf : List Char → Char → Option Nat
  | [], _ => none
  | c :: cs, ch => if c = ch then some 0 else (idxOf cs ch).map (· + 1)

/-- `Tokenizer.tokenize_image`: `image::<name>[<caption>]`. -/
def tokenize_image (ls : List String) : Node × List String :=
  match ls with
  | [] => (Node.mk "image" [] [], [])
  | l :: rest =>
    let body := l.data.drop 7
    let r :=
      match idxOf body '[' with
      | none => (jsTrim (strOf body), "")
      | some k =>
        let nm := jsTrim (strOf (body.take k))
        let after := body.drop k
        match idxOf after ']' with
        | none => (nm, "")
        | some m => (nm, if 0 < m then strOf ((after.drop 1).take (m - 1)) else "")
    (Node.mk "image" [("name", r.1), ("caption", r.2)] [], rest)

/-- `Tokenizer.tokenize_code_block`: verbatim lines up to the closing fence. -/
def tokenize_code_block (ls : List String) : Node × List String :=
  match ls with
  | [] => (Node.mk "codeblock" [] [], [])
  | l :: rest =>
    let lang := if l.data.length > 3 then jsTrim (strOf (l.data.drop 3)) else ""
    let content := rest.takeWhile (fun s => !(is_code_block s))
    let rest2 := rest.dropWhile (fun s => !(is_code_block s))
    (Node.mk "codeblock" [("language", lang)]
      (content.map (fun line => Node.mk "code-line" [("content", line)] [])), rest2.tail)

/-! ## Options sub-grammar (`Tokenizer.tokenize_options`).

The JS loops mutate an index `i` into the raw text; they are translated with a
fuel argument (the callers pass `length + 1`, which is more than the number of
iterations any of the loops can make, since every iteration needs
`i + 1 < length` and increments `i`). -/

/-- The attribute mapping produced by the options sub-grammar: a JS object as
an insertion-ordered association list. -/
abbrev Opts := List (String × String)

/-- JS property read `o[k]`, defaulting to the empty string. -/
def optGet (o : Opts) (k : String) : String :=
  match o.find? (fun p => p.1 = k) with
  | some p => p.2
  | none => ""

/-- JS property write `o[k] = v`: replace in place, or append a new binding. -/
def optSet (o : Opts) (k v : String) : Opts :=
  if (o.find? (fun p => p.1 = k)).isSome then
    o.map (fun p => if p.1 = k then (k, v) else p)
  else o ++ [(k, v)]

/-- JS `options.boolean += s`. -/
def boolAppend (o : Opts) (s : String) : Opts := optSet o "boolean" (optGet o "boolean" ++ s)

/-- `Tokenizer.is_space` applied at index `i` (`undefined` is not a space). -/
def isSpaceAt (cs : List Char) (i : Nat) : Bool :=
  match jsAt cs i with
  | some c => c = ' ' || c = '\t' || c = '\r' || c = '\n'
  | none => false

/-- `while (this.is_space(text[i]) && i < text.length-1) i += 1`. -/
def skipSpacesF : Nat → List Char → Nat → Nat
  | 0, _, i => i
  | f+1, cs, i =>
    if isSpaceAt cs i && decide (i + 1 < cs.length) then skipSpacesF f cs (i + 1) else i

/-- The KEY loop: `for (; text[i] !== "=" && i < text.length-1; i += 1)` with
the comma branch flushing the pending key into the `boolean` aggregate. -/
def keyLoopF : Nat → List Char → Nat → List Char → Opts → Nat × List Char × Opts
  | 0, _, i, key, opts => (i, key, opts)
  | f+1, cs, i, key, opts =>
    if (jsAt cs i != some '=') && decide (i + 1 < cs.length) then
      if jsAt cs i == some ',' then
        if trimChars key ≠ [] then
          keyLoopF f cs (i + 1) [] (boolAppend opts (strOf (trimChars key) ++ ";"))
        else keyLoopF f cs (i + 1) key opts
      else keyLoopF f cs (i + 1) (key ++ (jsAt cs i).toList) opts
    else (i, key, opts)

/-- The VALUE loops: scan until `stopCh` (a double quote for the quoted form,
a comma for the bare form), bounded by `i < text.length-1`. -/
def valLoopF (stopCh : Char) : Nat → List Char → Nat → List Char → Nat × List Char
  | 0, _, i, v => (i, v)
  | f+1, cs, i, v =>
    if (jsAt cs i != some stopCh) && decide (i + 1 < cs.length) then
      valLoopF stopCh f cs (i + 1) (v ++ (jsAt cs i).toList)
    else (i, v)

/-- The outer entry loop `for (let i = 1; i < text.length-2; i += 1)`. -/
def optLoopF : Nat → List Char → Nat → Opts → Opts
  | 0, _, _, opts => opts
  | f+1, cs, i, opts =>
    if i + 2 < cs.length then
      let i1 := skipSpacesF (cs.length + 1) cs i
      let kr := keyLoopF (cs.length + 1) cs i1 [] opts
      let i3 := kr.1 + 1
      let key := trimChars kr.2.1
      let opts2 := kr.2.2
      let i4 := skipSpacesF (cs.length + 1) cs i3
      let vr := if jsAt cs i4 == some '"'
                then valLoopF '"' (cs.length + 1) cs (i4 + 1) []
                else valLoopF ',' (cs.length + 1) cs i4 []
      let value := trimChars vr.2
      let opts3 := if value.length > 0 then optSet opts2 (strOf key) (strOf value)
                   else boolAppend opts2 (strOf key)
      optLoopF f cs (vr.1 + 1) opts3
    else opts

/-- `Tokenizer.tokenize_options`: input not framed by `[` … `]` yields an empty
mapping (plus a console diagnostic, which the embedding drops). -/
def tokenize_options (s : String) : Opts :=
  let cs := s.data
  if (jsAt cs 0 != some '[') || (jsAt cs (cs.length - 1) != some ']') then []
  else optLoopF (cs.length + 1) cs 1 [("boolean", "")]

/-! ## Tables, lists, paragraphs, and the main tokenize loop -/

/-- Split a row line after its leading `|` into trimmed cells, following the
JS `indexOf`-driven loop (a trailing `|` does not open an empty cell). -/
def rowCellsAux : List Char → List Char → List String
  | acc, [] => [jsTrim (strOf acc.reverse)]
  | acc, '|' :: [] => [jsTrim (strOf acc.reverse)]
  | acc, '|' :: c :: cs => jsTrim (strOf acc.reverse) :: rowCellsAux [] (c :: cs)
  | acc, c :: cs => rowCellsAux (c :: acc) cs

/-- Cells of one `|`-prefixed row line. -/
def rowCells (l : String) : List String :=
  match l.data with
  | [] => []
  | _ :: tail => if tail.isEmpty then [] else rowCellsAux [] tail

/-- The row region loop: collect `|`-rows, silently skip other lines, stop at
a `|===` delimiter (left for the caller to consume) or end of input. -/
def tableRows : List String → List (List String) × List String
  | [] => ([], [])
  | l :: rest =>
    if l = "|===" then ([], l :: rest)
    else if jsStartsWith l "|" then
      let r := tableRows rest
      (rowCells l :: r.1, r.2)
    else tableRows rest

/-- `Tokenizer.tokenize_table`: optional options line, optional opening
delimiter, row region, optional closing delimiter. -/
def tokenize_table (ls : List String) : Node × List String :=
  let p1 :=
    match ls with
    | [] => (([] : Opts), ([] : List String))
    | l :: rest => if jsStartsWith l "[" then (tokenize_options l, rest) else (([] : Opts), l :: rest)
  let ls2 :=
    match p1.2 with
    | [] => []
    | l :: rest => if l = "|===" then rest else l :: rest
  let rr := tableRows ls2
  (Node.mk "table" p1.1
    (rr.1.map (fun cells =>
      Node.mk "table-row" []
        (cells.map (fun cell => Node.mk "table-cell" [("content", cell)] [])))), rr.2.tail)

/-- The list-item run: each line's level counts repetitions of the run's
first-item marker character `ch`; content is the remainder, trimmed. -/
def listItemsAux (ch : Char) : List String → List Node × List String
  | [] => ([], [])
  | l :: rest =>
    if is_list_item l then
      let lvl := countLeading l.data ch
      let content := jsTrim (strOf (l.data.drop lvl))
      let r := listItemsAux ch rest
      (Node.mk "list-item" [("level", Nat.repr lvl)] [textNode content] :: r.1, r.2)
    else ([], l :: rest)

/-- `Tokenizer.tokenize_list`: kind fixed by the first item's leading char. -/
def tokenize_list (ls : List String) : Node × List String :=
  match ls with
  | [] => (Node.mk "unordered-list" [] [], [])
  | l :: _ =>
    let ch := (jsAt l.data 0).getD ' '
    let r := listItemsAux ch ls
    (Node.mk (if ch = '.' then "ordered-list" else "unordered-list") [] r.1, r.2)

/-- Continuation condition of the paragraph loop: non-blank and matching no
structural rule. -/
def paraCond (l : String) : Bool :=
  !(is_blank l) && !(is_heading l) && !(is_image l) && !(is_code_block l)
    && !(is_table_start l) && !(is_list_item l)

/-- Join strings with a separator (JS `Array.prototype.join`). -/
def joinSep (sep : String) : List String → String
  | [] => ""
  | [s] => s
  | s :: rest => s ++ sep ++ joinSep sep rest

/-- `Tokenizer.tokenize_paragraph`: trimmed accumulated lines joined by one
space. -/
def tokenize_paragraph (ls : List String) : Node × List String :=
  let taken := ls.takeWhile paraCond
  let rest := ls.dropWhile paraCond
  (Node.mk "paragraph" [] [textNode (joinSep " " (taken.map jsTrim))], rest)

/-- `Tokenizer.tokenize`: skip blank lines, dispatch by first-match
classification, repeat.  The fuel argument bounds the number of loop
iterations; since every branch consumes at least one line, any fuel above the
number of remaining lines yields the same (fuel-free) result, which is proved
for the termination claim. -/
def tokDispatch (l : String) (rest : List String) : Node × List String :=
  if is_heading l then tokenize_heading (l :: rest)
  else if is_image l then tokenize_image (l :: rest)
  else if is_code_block l then tokenize_code_block (l :: rest)
  else if is_table_start l then tokenize_table (l :: rest)
  else if is_list_item l then tokenize_list (l :: rest)
  else tokenize_paragraph (l :: rest)

def tokenizeGo : Nat → List String → List Node
  | 0, _ => []
  | _, [] => []
  | f+1, l :: rest =>
    if is_blank l then tokenizeGo f rest
    else
      let r := tokDispatch l rest
      r.1 :: tokenizeGo f r.2

/-- `tokenizeReport`: split on newlines and run the tokenizer. -/
def tokenizeReport (text : String) : List Node :=
  let ls := jsLines text
  tokenizeGo (ls.length + 1) ls

/-! ## Layout engine (src/static/svg.js `parse`) — heading numbering,
two-pass TOC texts, TOC back-patching, list labels -/

/-- The front-matter page offset constant (`const TOC_ADDITION = 3`). -/
def TOC_ADDITION : Int := 3

/-- The counter-advancing step shared (textually repeated) by the heading
cases of both passes and by the list renderer:
`while (counters.length < level) counters.push(0);`
`counters[level-1] += 1;`
`for (let l = level; l < counters.length; l++) counters[l] = 0;`
The two loops are written in closed form (append zeros / zero the tail). -/
def counterStep (c : List Nat) (L : Nat) : List Nat :=
  let p := c ++ List.replicate (L - c.length) 0
  let q := p.set (L - 1) (p.getD (L - 1) 0 + 1)
  q.take L ++ List.replicate (q.length - L) 0

/-- `xs.slice(0, L).join(".")`. -/
def dotJoin (xs : List Nat) : String := joinSep "." (xs.map Nat.repr)

/-- ASCII uppercasing (JS `toUpperCase` on the ASCII range). -/
def upStr (s : String) : String := strOf (s.data.map Char.toUpper)

/-- `node.attributes.numbered === 'true'`. -/
def hNumbered (n : Node) : Bool := attrOf n "numbered" == some "true"

/-- `isNumbered ? parseInt(node.attributes.level || '1', 10) : 0`. -/
def hLevel (n : Node) : Nat := if hNumbered n then jsLevelOf (attrOf n "level") else 0

/-- The heading computation both passes run in lockstep: update the counters
(numbered headings only) and build the displayed text
`prefix + ((isNumbered && level === 1) ? textContent.toUpperCase() : textContent)`. -/
def headingView (c : List Nat) (n : Node) : List Nat × String :=
  let textContent := contentOf n
  if hNumbered n then
    let level := hLevel n
    let c1 := counterStep c level
    let pfxStr := dotJoin (c1.take level) ++ " "
    (c1, pfxStr ++ (if level = 1 then upStr textContent else textContent))
  else (c, textContent)

/-- A TOC entry `{ text, page, isNumbered, level }`; `page = -1` is
unresolved. -/
structure TocEntry where
  text : String
  page : Int
  isNumbered : Bool
  level : Nat
deriving DecidableEq

/-- Pass 1 (numbering pre-pass over `temp_heading_counters`): walk heading
nodes only, push a TOC entry for every heading whose `type` is not `'%'`. -/
def prepassTocGo (c : List Nat) : List Node → List TocEntry
  | [] => []
  | n :: rest =>
    if n.name = "heading" then
      let r := headingView c n
      if attrOf n "type" ≠ some "%" then
        ⟨r.2, -1, hNumbered n, hLevel n⟩ :: prepassTocGo r.1 rest
      else prepassTocGo r.1 rest
    else prepassTocGo c rest

/-- The TOC list built by the numbering pre-pass. -/
def prepassToc (ns : List Node) : List TocEntry := prepassTocGo [] ns

/-- The heading display texts of pass 1 (the TOC entry texts, in order). -/
def prepassTexts (ns : List Node) : List String := (prepassToc ns).map TocEntry.text

/-- Pass 2 (rendering pass over `heading_counters`): walk all nodes; a
`'%'`-type unnumbered heading is skipped before any text is computed; no
non-heading case touches `heading_counters`. -/
def renderGo (c : List Nat) : List Node → List String
  | [] => []
  | n :: rest =>
    if n.name = "heading" then
      if !(hNumbered n) && attrOf n "type" == some "%" then renderGo c rest
      else
        let r := headingView c n
        r.2 :: renderGo r.1 rest
    else renderGo c rest

/-- The heading display texts computed (and rendered) by pass 2. -/
def renderHeadingTexts (ns : List Node) : List String := renderGo [] ns

/-- The TOC back-patch loop of the rendering pass: scan the TOC in order and
update the first entry matching `(text, page = -1, isNumbered, level)` with
`page_count + TOC_ADDITION`, then break. -/
def backpatch (t : String) (b : Bool) (lv : Nat) (pg : Int) : List TocEntry → List TocEntry
  | [] => []
  | e :: rest =>
    if e.text = t ∧ e.page = -1 ∧ e.isNumbered = b ∧ e.level = lv then
      { e with page := pg + TOC_ADDITION } :: rest
    else e :: backpatch t b lv pg rest

/-- The match predicate of the back-patch loop, as a proposition. -/
def tocHit (t : String) (b : Bool) (lv : Nat) (e : TocEntry) : Prop :=
  e.text = t ∧ e.page = -1 ∧ e.isNumbered = b ∧ e.level = lv

instance (t b lv) : DecidablePred (tocHit t b lv) := fun e => by
  unfold tocHit; infer_instance

/-- List rendering: one counter sequence per list node (`list_counters` is
reset before the items), the same counter step, ordered labels
`slice(0, level).join(".") + "."`, a fixed dash glyph otherwise. -/
def listLabelGo (isOrdered : Bool) (c : List Nat) : List Node → List String
  | [] => []
  | item :: rest =>
    if item.name = "list-item" then
      let lvl := jsLevelOf (attrOf item "level")
      let c1 := counterStep c lvl
      (if isOrdered then dotJoin (c1.take lvl) ++ "." else "–") :: listLabelGo isOrdered c1 rest
    else listLabelGo isOrdered c rest

/-- The bullet/number labels rendered for one list node. -/
def listLabels (n : Node) : List String :=
  listLabelGo (n.name = "ordered-list") [] n.children

/-- The labels of every list node of a document, in order. -/
def docListLabels (ns : List Node) : List (List String) :=
  ns.filterMap (fun n =>
    if n.name = "ordered-list" ∨ n.name = "unordered-list" then some (listLabels n) else none)

/-! ## Word-wrap / justifier (`add_wrapped_text` in src/static/svg.js)

Pixel widths are modelled as rationals and the external text measurer
(`text_width`) as an abstract function.  The measurer is passed twice: `tw`
measures at the run's font size (`text_width(w, text_size)`), `twd` at the
default size (the bare `text_width(" ")` call in the final-line branch).
JS float division is modelled by `jsDiv`, including the zero-denominator
results `Infinity`, `-Infinity` and `NaN`. -/

/-- A JS number that is finite, an infinity, or NaN. -/
inductive JSVal where
  | fin (q : ℚ)
  | posInf
  | negInf
  | nan
deriving DecidableEq

/-- JS `/` on reals: finite quotient, or the IEEE zero-denominator values. -/
def jsDiv (a b : ℚ) : JSVal :=
  if b = 0 then (if 0 < a then .posInf else if a < 0 then .negInf else .nan)
  else .fin (a / b)

/-- One emitted line of `add_wrapped_text`: its words, natural length
(`current_line_length_px`), its available width (`line_width`), whether it is
the run's final line, whether the stretched-spacing formula was kept, and the
resulting `word-spacing` value. -/
structure WrapLine where
  words : List String
  len : ℚ
  lw : ℚ
  isFinal : Bool
  stretched : Bool
  spacing : JSVal
deriving DecidableEq

/-- The greedy inner loop: after the first word, keep adding words while the
accumulated width (each word measured with one trailing space) stays within
the line width. -/
def packRest (tw : String → ℚ) (lwq : ℚ) : ℚ → List String → List String × ℚ × List String
  | len, [] => ([], len, [])
  | len, w :: ws =>
    let ww := tw (w ++ " ")
    if lwq < len + ww then ([], len, w :: ws)
    else
      let r := packRest tw lwq (len + ww) ws
      (w :: r.1, r.2.1, r.2.2)

/-- The outer `while (word_start_index < words.length)` loop.  Fuel bounds the
iteration count; each line consumes at least one word, so
`words.length + 1` is always sufficient. -/
def wrapGo (tw twd : String → ℚ) (aw ind : ℚ) (center : Bool) :
    Nat → Bool → List String → List WrapLine
  | 0, _, _ => []
  | _, _, [] => []
  | f+1, isFirst, w :: ws =>
    let lwq := aw - (if isFirst then ind else 0)
    let r := packRest tw lwq (tw (w ++ " ")) ws
    let lineWords := w :: r.1
    let len := r.2.1
    let rem := r.2.2
    let natOver := rem.isEmpty && decide (len ≤ lwq * (4/5))
    let sp0 := jsDiv (lwq - len) ((lineWords.length : ℚ) - 1)
    let spacing := if center then .fin (tw " ")
                   else if natOver then .fin (twd " ") else sp0
    ⟨lineWords, len, lwq, rem.isEmpty, !center && !natOver, spacing⟩ ::
      wrapGo tw twd aw ind center f false rem

/-- JS `split(/[ \t]+/)` on an already-trimmed text: collect words, treating a
maximal space/tab run as one separator (`inGap` remembers being inside one).
A whitespace-only but non-empty input splits to `[""]`, as in JS. -/
def splitWsAux (acc : List Char) (inGap : Bool) : List Char → List (List Char)
  | [] => if inGap then [] else [acc.reverse]
  | c :: cs =>
    if c = ' ' || c = '\t' then
      if inGap then splitWsAux [] true cs
      else acc.reverse :: splitWsAux [] true cs
    else splitWsAux (c :: acc) false cs

/-- The word list `add_wrapped_text` wraps: trim, then split on space/tab
runs. -/
def jsSplitWords (s : String) : List String := (splitWsAux [] false (trimChars s.data)).map strOf

/-- `add_wrapped_text` as the list of emitted lines (`if (!text) return 0`
emits nothing for an empty string). -/
def add_wrapped_text (tw twd : String → ℚ) (aw ind : ℚ) (center : Bool)
    (text : String) : List WrapLine :=
  if text = "" then []
  else
    let ws := jsSplitWords text
    wrapGo tw twd aw ind center (ws.length + 1) true ws

/-! ## Helper lemmas: tokenizer progress and termination -/

theorem dropWhile_len_le (p : α → Bool) (l : List α) : (l.dropWhile p).length ≤ l.length := by
  induction l with
  | nil => simp
  | cons a l ih =>
    rw [List.dropWhile_cons]
    split
    · exact Nat.le_succ_of_le ih
    · exact Nat.le_refl _

theorem tableRows_len_le (ls : List String) : (tableRows ls).2.length ≤ ls.length := by
  induction ls with
  | nil => simp [tableRows]
  | cons l rest ih =>
    simp only [tableRows]
    split
    · simp
    · split
      · simpa using Nat.le_succ_of_le ih
      · exact Nat.le_succ_of_le ih

theorem listItemsAux_len_le (ch : Char) (ls : List String) :
    (listItemsAux ch ls).2.length ≤ ls.length := by
  induction ls with
  | nil => simp [listItemsAux]
  | cons l rest ih =>
    simp only [listItemsAux]
    split
    · exact Nat.le_succ_of_le ih
    · simp

theorem tokenize_heading_progress (l : String) (rest : List String) :
    (tokenize_heading (l :: rest)).2.length < (l :: rest).length := by
  simp only [tokenize_heading]
  split <;> simp

theorem tokenize_image_progress (l : String) (rest : List String) :
    (tokenize_image (l :: rest)).2.length < (l :: rest).length := by
  simp only [tokenize_image]
  simp

theorem tokenize_code_block_progress (l : String) (rest : List String) :
    (tokenize_code_block (l :: rest)).2.length < (l :: rest).length := by
  have h := dropWhile_len_le (fun s => !(is_code_block s)) rest
  simp only [tokenize_code_block]
  rcases hd : rest.dropWhile (fun s => !(is_code_block s)) with _ | ⟨x, r⟩
  · rw [hd] at h
    simp at h ⊢
  · rw [hd] at h
    simp at h ⊢
    omega

theorem tableRows_cons_ne (l : String) (rest : List String) (h : l ≠ "|===") :
    (tableRows (l :: rest)).2 = (tableRows rest).2 := by
  simp only [tableRows]
  rw [if_neg h]
  split <;> rfl

theorem tokenize_table_progress (l : String) (rest : List String) :
    (tokenize_table (l :: rest)).2.length < (l :: rest).length := by
  simp only [tokenize_table]
  by_cases hb : jsStartsWith l "[" = true
  · rw [if_pos hb]
    rcases rest with _ | ⟨x, r'⟩
    · simp [tableRows]
    · by_cases hx : x = "|==="
      · have h2 := tableRows_len_le r'
        simp only [hx, if_pos, List.length_tail, List.length_cons]
        omega
      · have h2 := tableRows_len_le r'
        simp only [if_neg hx, tableRows_cons_ne x r' hx, List.length_tail, List.length_cons]
        omega
  · rw [if_neg hb]
    by_cases hl : l = "|==="
    · have h2 := tableRows_len_le rest
      simp only [hl, if_pos, List.length_tail, List.length_cons]
      omega
    · have h2 := tableRows_len_le rest
      simp only [if_neg hl, tableRows_cons_ne l rest hl, List.length_tail, List.length_cons]
      omega

theorem tokenize_list_progress (l : String) (rest : List String)
    (h : is_list_item l = true) :
    (tokenize_list (l :: rest)).2.length < (l :: rest).length := by
  have h2 := listItemsAux_len_le ((jsAt l.data 0).getD ' ') rest
  simp only [tokenize_list, listItemsAux, h, if_pos]
  simpa using Nat.lt_succ_of_le h2

theorem tokenize_paragraph_progress (l : String) (rest : List String)
    (h : paraCond l = true) :
    (tokenize_paragraph (l :: rest)).2.length < (l :: rest).length := by
  have h2 := dropWhile_len_le paraCond rest
  simp only [tokenize_paragraph, List.dropWhile_cons, h, if_pos]
  simpa using Nat.lt_succ_of_le h2

theorem tokDispatch_progress (l : String) (rest : List String) (hb : is_blank l = false) :
    (tokDispatch l rest).2.length < (l :: rest).length := by
  unfold tokDispatch
  split_ifs with h1 h2 h3 h4 h5
  · exact tokenize_heading_progress l rest
  · exact tokenize_image_progress l rest
  · exact tokenize_code_block_progress l rest
  · exact tokenize_table_progress l rest
  · exact tokenize_list_progress l rest h5
  · refine tokenize_paragraph_progress l rest ?_
    simp [paraCond, hb, h1, h2, h3, h4, h5]

theorem tokenizeGo_blank (f : Nat) :
    ∀ ls : List String, (∀ l ∈ ls, is_blank l = true) → tokenizeGo f ls = [] := by
  induction f with
  | zero => intro ls _; cases ls <;> rfl
  | succ n ih =>
    intro ls h
    cases ls with
    | nil => rfl
    | cons l rest =>
      have hb : is_blank l = true := h l (by simp)
      simp only [tokenizeGo, hb, if_pos]
      exact ih rest (fun x hx => h x (by simp [hx]))

theorem tokenizeGo_eq_aux (N : Nat) :
    ∀ (f g : Nat) (ls : List String), ls.length ≤ N → ls.length < f → ls.length < g →
      tokenizeGo f ls = tokenizeGo g ls := by
  induction N with
  | zero =>
    intro f g ls hN hf hg
    rcases ls with _ | ⟨l, rest⟩
    · rcases f with _ | f
      · omega
      · rcases g with _ | g
        · omega
        · rfl
    · simp at hN
  | succ N ih =>
    intro f g ls hN hf hg
    rcases ls with _ | ⟨l, rest⟩
    · rcases f with _ | f
      · omega
      · rcases g with _ | g
        · omega
        · rfl
    · rcases f with _ | f
      · omega
      · rcases g with _ | g
        · omega
        · simp only [tokenizeGo]
          simp only [List.length_cons] at hN hf hg
          by_cases hb : is_blank l = true
          · rw [if_pos hb, if_pos hb]
            exact ih f g rest (by omega) (by omega) (by omega)
          · rw [if_neg hb, if_neg hb]
            have hp := tokDispatch_progress l rest (by simpa using hb)
            simp only [List.length_cons] at hp
            congr 1
            exact ih f g (tokDispatch l rest).2 (by omega) (by omega) (by omega)

/-- C7: the tokenizer is total — every classification branch consumes at least
one line per invocation, so the cursor strictly advances; with any fuel above
the number of remaining lines the loop computes the same (fuel-free) result;
and an all-blank input tokenizes to the empty document. -/
theorem C7_tokenizer_total :
    (∀ text : String, (∀ l ∈ jsLines text, is_blank l = true) → tokenizeReport text = [])
    ∧ (∀ (f g : Nat) (ls : List String), ls.length < f → ls.length < g →
        tokenizeGo f ls = tokenizeGo g ls)
    ∧ (∀ (l : String) (rest : List String),
        (tokenize_heading (l :: rest)).2.length < (l :: rest).length
        ∧ (tokenize_image (l :: rest)).2.length < (l :: rest).length
        ∧ (tokenize_code_block (l :: rest)).2.length < (l :: rest).length
        ∧ (tokenize_table (l :: rest)).2.length < (l :: rest).length
        ∧ (is_list_item l = true → (tokenize_list (l :: rest)).2.length < (l :: rest).length)
        ∧ (paraCond l = true → (tokenize_paragraph (l :: rest)).2.length < (l :: rest).length)
        ∧ (is_blank l = false → (tokDispatch l rest).2.length < (l :: rest).length)) := by
  refine ⟨fun text h => tokenizeGo_blank _ _ h, fun f g ls hf hg =>
    tokenizeGo_eq_aux ls.length f g ls (Nat.le_refl _) hf hg, fun l rest => ?_⟩
  exact ⟨tokenize_heading_progress l rest, tokenize_image_progress l rest,
    tokenize_code_block_progress l rest, tokenize_table_progress l rest,
    fun h => tokenize_list_progress l rest h,
    fun h => tokenize_paragraph_progress l rest h,
    fun h => tokDispatch_progress l rest h⟩

/-- Witness for C7 at concrete inputs. -/
theorem C7_tokenizer_total_witness :
    tokenizeReport "\n  \n" = []
    ∧ tokenizeGo 2 ["# X"] = tokenizeGo 9 ["# X"]
    ∧ (tokenize_list (".a" :: ["-b"])).2.length < 2 := by
  refine ⟨C7_tokenizer_total.1 "\n  \n" (by decide),
    C7_tokenizer_total.2.1 2 9 ["# X"] (by decide) (by decide), ?_⟩
  have h := (C7_tokenizer_total.2.2 ".a" ["-b"]).2.2.2.2.1 (by decide)
  simpa using h

/-! ## Helper lemmas: heading counter characterization -/

theorem pad_getD (c : List Nat) (L i : Nat) :
    (c ++ List.replicate (L - c.length) 0).getD i 0 = c.getD i 0 := by
  by_cases h : i < c.length
  · simp [List.getD_eq_getElem?_getD, List.getElem?_append_left h]
  · push_neg at h
    by_cases h2 : i < c.length + (L - c.length)
    · rw [List.getD_eq_getElem?_getD, List.getElem?_append_right h,
        List.getElem?_replicate_of_lt (by omega)]
      rw [List.getD_eq_getElem?_getD, List.getElem?_eq_none (by omega)]
      rfl
    · rw [List.getD_eq_getElem?_getD, List.getElem?_eq_none (by simp; omega)]
      rw [List.getD_eq_getElem?_getD, List.getElem?_eq_none (by omega)]

theorem counterStep_len (c : List Nat) (L : Nat) :
    (counterStep c L).length = max c.length L := by
  simp only [counterStep]
  simp [List.length_take, List.length_set, List.length_append, List.length_replicate]
  omega

theorem counterStep_getD_lt (c : List Nat) (L i : Nat) (h : i + 1 < L) :
    (counterStep c L).getD i 0 = c.getD i 0 := by
  simp only [counterStep]
  have hplen : (c ++ List.replicate (L - c.length) 0).length = c.length + (L - c.length) := by
    simp
  rw [List.getD_eq_getElem?_getD,
    List.getElem?_append_left (by simp [List.length_take, List.length_set]; omega),
    List.getElem?_take_of_lt (by omega), List.getElem?_set_ne (by omega),
    ← List.getD_eq_getElem?_getD]
  exact pad_getD c L i

theorem counterStep_getD_incr (c : List Nat) (L : Nat) (hL : 1 ≤ L) :
    (counterStep c L).getD (L - 1) 0 = c.getD (L - 1) 0 + 1 := by
  simp only [counterStep]
  have hplen : (c ++ List.replicate (L - c.length) 0).length = c.length + (L - c.length) := by
    simp
  rw [List.getD_eq_getElem?_getD,
    List.getElem?_append_left (by simp [List.length_take, List.length_set]; omega),
    List.getElem?_take_of_lt (by omega), List.getElem?_set_self (by omega)]
  simp only [Option.getD_some, Nat.add_right_cancel_iff]
  exact pad_getD c L (L - 1)

theorem counterStep_getD_ge (c : List Nat) (L i : Nat) (h : L ≤ i) :
    (counterStep c L).getD i 0 = 0 := by
  simp only [counterStep]
  have hplen : (c ++ List.replicate (L - c.length) 0).length = c.length + (L - c.length) := by
    simp
  have hqlen :
      ((c ++ List.replicate (L - c.length) 0).set (L - 1)
        ((c ++ List.replicate (L - c.length) 0).getD (L - 1) 0 + 1)).length
        = c.length + (L - c.length) := by
    simp
  by_cases h2 : i < c.length + (L - c.length)
  · rw [List.getD_eq_getElem?_getD,
      List.getElem?_append_right (by simp [List.length_take]; omega),
      List.getElem?_replicate_of_lt (by simp [List.length_take, hqlen]; omega)]
    rfl
  · rw [List.getD_eq_getElem?_getD, List.getElem?_eq_none (by simp [hqlen]; omega)]
    rfl

/-- C1: the layout engine numbers a heading at level `L ≥ 1` by extending the
counter sequence with zeros to length at least `L`, incrementing index
`L − 1`, zeroing every index at or beyond `L`, and prefixing the heading text
with the first `L` values joined by `.` followed by a space; on the input
`"# A\n## B\n# C"` the heading display texts are `"1 A"`, `"1.1 B"`, `"2 C"`. -/
theorem C1_heading_numbering :
    (∀ (c : List Nat) (L : Nat), 1 ≤ L →
      ((counterStep c L).length = max c.length L
        ∧ (∀ i, i + 1 < L → (counterStep c L).getD i 0 = c.getD i 0)
        ∧ (counterStep c L).getD (L - 1) 0 = c.getD (L - 1) 0 + 1
        ∧ (∀ i, L ≤ i → (counterStep c L).getD i 0 = 0)))
    ∧ (∀ (c : List Nat) (n : Node), hNumbered n = true →
        (headingView c n).2
          = (dotJoin ((counterStep c (hLevel n)).take (hLevel n)) ++ " ")
            ++ (if hLevel n = 1 then upStr (contentOf n) else contentOf n))
    ∧ renderHeadingTexts (tokenizeReport "# A\n## B\n# C") = ["1 A", "1.1 B", "2 C"] := by
  refine ⟨fun c L hL => ⟨counterStep_len c L, fun i hi => counterStep_getD_lt c L i hi,
    counterStep_getD_incr c L hL, fun i hi => counterStep_getD_ge c L i hi⟩,
    fun c n h => ?_, by decide⟩
  simp [headingView, h]

/-- Witness for C1 at concrete inputs. -/
theorem C1_heading_numbering_witness :
    ((counterStep [1] 2).getD (2 - 1) 0 = [1].getD (2 - 1) 0 + 1)
    ∧ (headingView [1] (Node.mk "heading" [("numbered", "true"), ("level", "2")]
          [textNode "B"])).2
        = (dotJoin ((counterStep [1]
              (hLevel (Node.mk "heading" [("numbered", "true"), ("level", "2")]
                [textNode "B"]))).take
              (hLevel (Node.mk "heading" [("numbered", "true"), ("level", "2")]
                [textNode "B"]))) ++ " ")
          ++ (if hLevel (Node.mk "heading" [("numbered", "true"), ("level", "2")]
                [textNode "B"]) = 1
              then upStr (contentOf (Node.mk "heading" [("numbered", "true"), ("level", "2")]
                [textNode "B"]))
              else contentOf (Node.mk "heading" [("numbered", "true"), ("level", "2")]
                [textNode "B"])) :=
  ⟨(C1_heading_numbering.1 [1] 2 (by decide)).2.2.1,
    C1_heading_numbering.2.1 [1] _ (by decide)⟩

/-- C2: during the rendering pass the back-patch loop updates exactly the
first TOC entry whose `(text, numbered, level)` tuple matches and whose page
is still `-1`, setting its page to the physical page index plus the
front-matter offset `TOC_ADDITION`; entries before it (all non-matching) and
after it are returned unchanged, and an already-resolved entry is never
changed — so duplicated heading tuples bind in order of occurrence. -/
theorem C2_toc_backpatch (t : String) (b : Bool) (lv : Nat) (pg : Int) :
    ((∀ l : List TocEntry, (∀ e ∈ l, ¬ tocHit t b lv e) → backpatch t b lv pg l = l)
      ∧ (∀ (l1 : List TocEntry) (e : TocEntry) (l2 : List TocEntry),
          (∀ x ∈ l1, ¬ tocHit t b lv x) → tocHit t b lv e →
            backpatch t b lv pg (l1 ++ e :: l2)
              = l1 ++ { e with page := pg + TOC_ADDITION } :: l2)
      ∧ (∀ (l : List TocEntry) (k : Nat) (x : TocEntry),
          l.get? k = some x → x.page ≠ -1 → (backpatch t b lv pg l).get? k = some x)) := by
  refine ⟨?_, ?_, ?_⟩
  · intro l h
    induction l with
    | nil => rfl
    | cons e rest ih =>
      rw [backpatch,
        if_neg (show ¬(e.text = t ∧ e.page = -1 ∧ e.isNumbered = b ∧ e.level = lv) from
          h e (by simp))]
      rw [ih (fun x hx => h x (by simp [hx]))]
  · intro l1 e l2 h1 he
    induction l1 with
    | nil =>
      rw [List.nil_append, List.nil_append, backpatch,
        if_pos (show e.text = t ∧ e.page = -1 ∧ e.isNumbered = b ∧ e.level = lv from he)]
    | cons x l1 ih =>
      rw [List.cons_append, backpatch,
        if_neg (show ¬(x.text = t ∧ x.page = -1 ∧ x.isNumbered = b ∧ x.level = lv) from
          h1 x (by simp)),
        ih (fun y hy => h1 y (by simp [hy])), List.cons_append]
  · intro l
    induction l with
    | nil => intro k x h _; simp at h
    | cons e rest ih =>
      intro k x hk hx
      by_cases he : tocHit t b lv e
      · rw [backpatch,
          if_pos (show e.text = t ∧ e.page = -1 ∧ e.isNumbered = b ∧ e.level = lv from he)]
        cases k with
        | zero =>
          simp only [List.get?] at hk
          cases hk
          exact absurd he.2.1 hx
        | succ k => simpa using hk
      · rw [backpatch,
          if_neg (show ¬(e.text = t ∧ e.page = -1 ∧ e.isNumbered = b ∧ e.level = lv) from he)]
        cases k with
        | zero => simpa using hk
        | succ k =>
          simp only [List.get?] at hk ⊢
          exact ih k x hk hx

/-- Witness for C2 at concrete inputs: two identical unresolved entries, the
first one is patched, the second stays unresolved; a resolved entry survives. -/
theorem C2_toc_backpatch_witness :
    backpatch "x" true 1 4 [⟨"x", -1, true, 1⟩, ⟨"x", -1, true, 1⟩]
      = [⟨"x", 4 + TOC_ADDITION, true, 1⟩, ⟨"x", -1, true, 1⟩]
    ∧ (backpatch "x" true 1 4 [⟨"x", 9, true, 1⟩]).get? 0 = some ⟨"x", 9, true, 1⟩ := by
  constructor
  · have h := (C2_toc_backpatch "x" true 1 4).2.1 [] ⟨"x", -1, true, 1⟩ [⟨"x", -1, true, 1⟩]
      (by simp) (by constructor <;> simp)
    simpa using h
  · exact (C2_toc_backpatch "x" true 1 4).2.2 [⟨"x", 9, true, 1⟩] 0 ⟨"x", 9, true, 1⟩ (by rfl)
      (by decide)

/-! ## Helper lemmas: two-pass lockstep (C3) -/

/-- Well-formedness the tokenizer guarantees: a `heading` node that is
numbered carries no `type` attribute equal to `"%"` (numbered headings carry
no `type` attribute at all). -/
def headingWF (ns : List Node) : Prop :=
  ∀ n ∈ ns, n.name = "heading" → hNumbered n = true → attrOf n "type" ≠ some "%"

theorem headingView_fst_unnumbered (c : List Nat) (n : Node) (h : hNumbered n = false) :
    (headingView c n).1 = c := by
  simp [headingView, h]

theorem lockstep_texts (ns : List Node) (hwf : headingWF ns) :
    ∀ c : List Nat, (prepassTocGo c ns).map TocEntry.text = renderGo c ns := by
  induction ns with
  | nil => intro c; rfl
  | cons n rest ih =>
    intro c
    have hwfn := hwf n (by simp)
    have hwft : headingWF rest := fun x hx => hwf x (by simp [hx])
    by_cases hn : n.name = "heading"
    · by_cases ht : attrOf n "type" = some "%"
      · have hnum : hNumbered n = false := by
          cases h : hNumbered n
          · rfl
          · exact absurd ht (hwfn hn h)
        rw [prepassTocGo, if_pos hn, if_neg (by simpa using ht), renderGo, if_pos hn,
          if_pos (by simp [hnum, ht]), headingView_fst_unnumbered c n hnum]
        exact ih hwft c
      · rw [prepassTocGo, if_pos hn, if_pos (by simpa using ht), renderGo, if_pos hn,
          if_neg (by simp [ht])]
        simp only [List.map_cons]
        rw [ih hwft]
    · rw [prepassTocGo, if_neg hn, renderGo, if_neg hn]
      exact ih hwft c

theorem tokDispatch_headingWF (l : String) (rest : List String) :
    (tokDispatch l rest).1.name = "heading" → hNumbered (tokDispatch l rest).1 = true →
      attrOf (tokDispatch l rest).1 "type" ≠ some "%" := by
  unfold tokDispatch
  split_ifs with h1 h2 h3 h4 h5
  · simp only [tokenize_heading]
    split
    · intro _ hnum
      simp [hNumbered, attrOf, Node.attrs, List.find?] at hnum
    · intro _ _
      simp [attrOf, Node.attrs, List.find?]
  · simp [tokenize_image, Node.name]
  · simp [tokenize_code_block, Node.name]
  · simp [tokenize_table, Node.name]
  · simp only [tokenize_list]
    split <;> simp [Node.name]
  · simp [tokenize_paragraph, Node.name]

theorem tokenizeGo_headingWF (f : Nat) : ∀ ls : List String, headingWF (tokenizeGo f ls) := by
  induction f with
  | zero => intro ls n hn; cases ls <;> simp [tokenizeGo] at hn
  | succ f ih =>
    intro ls n hn
    rcases ls with _ | ⟨l, rest⟩
    · simp [tokenizeGo] at hn
    · by_cases hb : is_blank l = true
      · rw [tokenizeGo, if_pos hb] at hn
        exact ih rest n hn
      · rw [tokenizeGo, if_neg hb] at hn
        simp only [List.mem_cons] at hn
        rcases hn with hn | hn
        · subst hn
          exact tokDispatch_headingWF l rest
        · exact ih _ n hn

/-- C3: the numbering pre-pass and the rendering pass compute identical
display texts: for every document produced by the tokenizer, the list of TOC
entry texts built in pass 1 equals the list of heading texts rendered in
pass 2 (both passes run the same counter algorithm with the same
transformations, and `%`-type headings do not advance the counters in either
pass). -/
theorem C3_two_pass_texts (text : String) :
    prepassTexts (tokenizeReport text) = renderHeadingTexts (tokenizeReport text) := by
  unfold prepassTexts prepassToc renderHeadingTexts
  exact lockstep_texts _ (tokenizeGo_headingWF _ _) []

/-! ## Helper lemmas: word-wrap spacing (C4, C9) -/

theorem wrapGo_mem_spec (tw twd : String → ℚ) (aw ind : ℚ) (center : Bool) :
    ∀ (f : Nat) (isFirst : Bool) (ws : List String) (line : WrapLine),
      line ∈ wrapGo tw twd aw ind center f isFirst ws →
        (1 ≤ line.words.length
          ∧ (line.stretched = true →
              center = false
              ∧ line.spacing = jsDiv (line.lw - line.len) ((line.words.length : ℚ) - 1))
          ∧ (center = false → line.isFinal = true → line.len ≤ line.lw * (4/5) →
              line.spacing = JSVal.fin (twd " "))
          ∧ (center = false → line.isFinal = false →
              line.spacing = jsDiv (line.lw - line.len) ((line.words.length : ℚ) - 1))
          ∧ (center = false → line.isFinal = true → line.lw * (4/5) < line.len →
              line.spacing = jsDiv (line.lw - line.len) ((line.words.length : ℚ) - 1))) := by
  intro f
  induction f with
  | zero => intro _ ws line h; cases ws <;> simp [wrapGo] at h
  | succ f ih =>
    intro isFirst ws line h
    rcases ws with _ | ⟨w, ws⟩
    · simp [wrapGo] at h
    · rw [wrapGo] at h
      simp only [List.mem_cons] at h
      rcases h with h | h
      · subst h
        clear ih
        generalize (aw - if isFirst = true then ind else 0) = lwq
        generalize packRest tw lwq (tw (w ++ " ")) ws = R
        obtain ⟨taken, len, rem⟩ := R
        refine ⟨by simp, ?_, ?_, ?_, ?_⟩ <;>
          rcases hc : center with _ | _ <;>
            rcases hE : rem.isEmpty with _ | _ <;>
              by_cases hD : (len ≤ lwq * (4/5)) <;>
                simp_all [not_le]
      · exact ih false _ line h

/-- Concrete text measurer for the 80%-boundary example: both words measure 4
pixels together with their trailing space; anything else (in particular a
lone space) measures 1. -/
def twA (s : String) : ℚ := if s = "a " then 4 else if s = "b " then 4 else 1

/-- Concrete text measurer for the single-word-line example: both words
measure 6 pixels together with their trailing space; anything else measures
1. -/
def twB (s : String) : ℚ := if s = "aa " then 6 else if s = "bb " then 6 else 1

theorem addWrapped_twA_eval :
    add_wrapped_text twA twA 10 0 false "a b"
      = [⟨["a", "b"], 8, 10, true, false, .fin 1⟩] := by
  have h0 : add_wrapped_text twA twA 10 0 false "a b"
      = wrapGo twA twA 10 0 false (2+1) true ["a", "b"] := by
    simp only [add_wrapped_text, show jsSplitWords "a b" = ["a", "b"] from by decide,
      eq_false (show ¬("a b" = "") from by decide), if_false, List.length_cons,
      List.length_nil]
  rw [h0]
  norm_num [wrapGo, packRest, twA, jsDiv,
    show ("a" ++ " " : String) = "a " from rfl, show ("b" ++ " " : String) = "b " from rfl]
  decide

theorem addWrapped_twB_eval :
    add_wrapped_text twB twB 10 0 false "aa bb"
      = [⟨["aa"], 6, 10, false, true, .posInf⟩, ⟨["bb"], 6, 10, true, false, .fin 1⟩] := by
  have h1 : wrapGo twB twB 10 0 false 2 false ["bb"]
      = [⟨["bb"], 6, 10, true, false, .fin 1⟩] := by
    have e2 : wrapGo twB twB 10 0 false 2 false ["bb"]
        = wrapGo twB twB 10 0 false (1+1) false ["bb"] := rfl
    rw [e2]
    norm_num [wrapGo, packRest, twB, jsDiv, show ("bb" ++ " " : String) = "bb " from rfl]
    decide
  have h0 : add_wrapped_text twB twB 10 0 false "aa bb"
      = wrapGo twB twB 10 0 false (2+1) true ["aa", "bb"] := by
    simp only [add_wrapped_text, show jsSplitWords "aa bb" = ["aa", "bb"] from by decide,
      eq_false (show ¬("aa bb" = "") from by decide), if_false, List.length_cons,
      List.length_nil]
  rw [h0]
  norm_num [wrapGo, packRest, twB, jsDiv, h1,
    show ("aa" ++ " " : String) = "aa " from rfl, show ("bb" ++ " " : String) = "bb " from rfl]

/-- C4 (amended): in a left-aligned run every non-final emitted line gets the
stretched spacing `(line width − natural length) / (word count − 1)`; the
final line keeps natural single-space spacing (measured at the default size)
unless its natural length strictly exceeds 80% of the line's available width,
in which case it is justified by the same formula — at exactly 80% the final
line keeps natural spacing. -/
theorem C4_justified_spacing (tw twd : String → ℚ) (aw ind : ℚ) (text : String)
    (line : WrapLine) (h : line ∈ add_wrapped_text tw twd aw ind false text) :
    (line.isFinal = false →
      line.spacing = jsDiv (line.lw - line.len) ((line.words.length : ℚ) - 1))
    ∧ (line.isFinal = true →
        ((line.len ≤ line.lw * (4/5) → line.spacing = JSVal.fin (twd " "))
          ∧ (line.lw * (4/5) < line.len →
              line.spacing = jsDiv (line.lw - line.len) ((line.words.length : ℚ) - 1)))) := by
  unfold add_wrapped_text at h
  by_cases he : text = ""
  · simp [he] at h
  · rw [if_neg he] at h
    have hs := wrapGo_mem_spec tw twd aw ind false _ _ _ line h
    exact ⟨fun hf => hs.2.2.2.1 rfl hf,
      fun hf => ⟨fun hle => hs.2.2.1 rfl hf hle, fun hlt => hs.2.2.2.2 rfl hf hlt⟩⟩

/-- Counterexample to C4 as stated: a final line whose natural length is
exactly 80% of the available width (8 = 10·0.8) receives natural spacing
(`fin 1`), not the justified spacing the claim requires
(`(10 − 8)/(2 − 1) = 2`). -/
theorem C4_eighty_boundary_cex :
    add_wrapped_text twA twA 10 0 false "a b"
      = [⟨["a", "b"], 8, 10, true, false, .fin 1⟩]
    ∧ (8 : ℚ) = 10 * (4/5)
    ∧ jsDiv ((10 : ℚ) - 8) (((["a", "b"].length : ℕ) : ℚ) - 1) = JSVal.fin 2
    ∧ JSVal.fin 1 ≠ JSVal.fin 2 := by
  refine ⟨addWrapped_twA_eval, by norm_num, by norm_num [jsDiv], ?_⟩
  intro h
  injection h with h2
  exact absurd h2 (by norm_num)

/-- Witness for C4 at a concrete input: applying the theorem to the final
line of the `twA` run yields its natural spacing. -/
theorem C4_justified_spacing_witness :
    (⟨["a", "b"], 8, 10, true, false, .fin 1⟩ : WrapLine).spacing = JSVal.fin (twA " ") := by
  have hm : (⟨["a", "b"], 8, 10, true, false, .fin 1⟩ : WrapLine)
      ∈ add_wrapped_text twA twA 10 0 false "a b" := by
    rw [addWrapped_twA_eval]
    exact List.mem_singleton.mpr rfl
  exact ((C4_justified_spacing twA twA 10 0 "a b" _ hm).2 rfl).1 (by norm_num)

/-- C9 (amended): every emitted line contains at least one word, but a line
that keeps the stretched-spacing formula may contain exactly one word (when
its follower overflows the line); in that case the divisor `word count − 1`
is zero and the spacing is the JS zero-division value: `Infinity`,
`-Infinity`, or `NaN`. -/
theorem C9_stretched_line_words (tw twd : String → ℚ) (aw ind : ℚ) (center : Bool)
    (text : String) (line : WrapLine)
    (h : line ∈ add_wrapped_text tw twd aw ind center text) :
    1 ≤ line.words.length
    ∧ (line.stretched = true → line.words.length = 1 →
        (line.spacing = JSVal.posInf ∨ line.spacing = JSVal.negInf
          ∨ line.spacing = JSVal.nan)) := by
  unfold add_wrapped_text at h
  by_cases he : text = ""
  · simp [he] at h
  · rw [if_neg he] at h
    have hs := wrapGo_mem_spec tw twd aw ind center _ _ _ line h
    refine ⟨hs.1, fun hstr h1 => ?_⟩
    have h2 := (hs.2.1 hstr).2
    rw [h1] at h2
    rw [show (((1 : Nat) : ℚ) - 1) = 0 from by norm_num] at h2
    rw [h2]
    simp only [jsDiv, if_pos rfl]
    split_ifs <;> simp

/-- Counterexample to C9 as stated: in the `twB` run the first emitted line
keeps the stretched-spacing formula (`stretched = true`) yet contains only
one word, so the division by `word count − 1` is a division by zero
(spacing `Infinity`). -/
theorem C9_single_word_stretched_cex :
    add_wrapped_text twB twB 10 0 false "aa bb"
      = [⟨["aa"], 6, 10, false, true, .posInf⟩, ⟨["bb"], 6, 10, true, false, .fin 1⟩]
    ∧ (⟨["aa"], 6, 10, false, true, .posInf⟩ : WrapLine).stretched = true
    ∧ (⟨["aa"], 6, 10, false, true, .posInf⟩ : WrapLine).words.length < 2 :=
  ⟨addWrapped_twB_eval, rfl, by decide⟩

/-- Witness for C9 at a concrete input: the single-word stretched line of the
`twB` run has an infinite or NaN spacing. -/
theorem C9_stretched_line_words_witness :
    (⟨["aa"], 6, 10, false, true, .posInf⟩ : WrapLine).spacing = JSVal.posInf
    ∨ (⟨["aa"], 6, 10, false, true, .posInf⟩ : WrapLine).spacing = JSVal.negInf
    ∨ (⟨["aa"], 6, 10, false, true, .posInf⟩ : WrapLine).spacing = JSVal.nan := by
  have hm : (⟨["aa"], 6, 10, false, true, .posInf⟩ : WrapLine)
      ∈ add_wrapped_text twB twB 10 0 false "aa bb" := by
    rw [addWrapped_twB_eval]
    simp
  exact (C9_stretched_line_words twB twB 10 0 false "aa bb" _ hm).2 rfl rfl

/-! ## Lists (C5) -/

/-- Projection of a document to its list nodes: list kind plus each item's
`level` attribute and content. -/
def listShape (ns : List Node) : List (String × List (String × String)) :=
  ns.filterMap (fun n =>
    if n.name = "ordered-list" ∨ n.name = "unordered-list" then
      some (n.name, n.children.map (fun i => ((attrOf i "level").getD "", contentOf i)))
    else none)

theorem listItemsAux_spec (ch : Char) :
    ∀ ls : List String,
      listItemsAux ch ls
        = ((ls.takeWhile is_list_item).map (fun s =>
            Node.mk "list-item" [("level", Nat.repr (countLeading s.data ch))]
              [textNode (jsTrim (strOf (s.data.drop (countLeading s.data ch))))]),
          ls.dropWhile is_list_item) := by
  intro ls
  induction ls with
  | nil => rfl
  | cons l rest ih =>
    rw [listItemsAux, List.takeWhile_cons, List.dropWhile_cons]
    by_cases h : is_list_item l = true
    · rw [if_pos h, if_pos h, if_pos h, ih]
      simp
    · rw [if_neg h, if_neg (by simpa using h), if_neg (by simpa using h)]
      simp

/-- Counterexample to C5 as stated: in the ordered run `".a\n-b"` the item
`-b` keeps the other marker character; the code assigns it level `0` and
content `"-b"` (counting repetitions of the run's first marker `.`), while
the claim demands level `1` and content `"b"` (counting the item's own
leading `-` and stripping it). -/
theorem C5_mixed_marker_cex :
    listShape (tokenizeReport ".a\n-b") = [("ordered-list", [("1", "a"), ("0", "-b")])]
    ∧ countLeading "-b".data '-' = 1
    ∧ jsTrim (strOf ("-b".data.drop 1)) = "b"
    ∧ ¬(("0" : String) = "1" ∧ ("-b" : String) = "b") := by decide

/-- C5 (amended): a contiguous run of list-item lines forms one list whose
kind is fixed by the first item's leading character (`.` ordered, `-`
unordered) even when later items use the other character; every item's level
counts repetitions of the *run's first* marker character (so an other-marker
item gets level 0) and its content is the line after dropping that count,
trimmed; the input `".Item1\n..Item1.1\n.Item2"` numbers its ordered items
`"1."`, `"1.1."`, `"2."`. -/
theorem C5_list_rule (ch : Char) (l : String) (rest : List String)
    (hc : jsAt l.data 0 = some ch) (_hl : is_list_item l = true) :
    tokenize_list (l :: rest)
      = (Node.mk (if ch = '.' then "ordered-list" else "unordered-list") []
          (((l :: rest).takeWhile is_list_item).map (fun s =>
            Node.mk "list-item" [("level", Nat.repr (countLeading s.data ch))]
              [textNode (jsTrim (strOf (s.data.drop (countLeading s.data ch))))])),
          (l :: rest).dropWhile is_list_item)
    ∧ docListLabels (tokenizeReport ".Item1\n..Item1.1\n.Item2") = [["1.", "1.1.", "2."]] := by
  refine ⟨?_, by decide⟩
  simp only [tokenize_list, hc, Option.getD_some, listItemsAux_spec]

/-- Witness for C5 at a concrete input. -/
theorem C5_list_rule_witness :
    tokenize_list (".a" :: ["-b"])
      = (Node.mk (if '.' = '.' then "ordered-list" else "unordered-list") []
          (((".a" :: ["-b"]).takeWhile is_list_item).map (fun s =>
            Node.mk "list-item" [("level", Nat.repr (countLeading s.data '.'))]
              [textNode (jsTrim (strOf (s.data.drop (countLeading s.data '.'))))])),
          (".a" :: ["-b"]).dropWhile is_list_item)
    ∧ docListLabels (tokenizeReport ".Item1\n..Item1.1\n.Item2") = [["1.", "1.1.", "2."]] :=
  C5_list_rule '.' ".a" ["-b"] (by decide) (by decide)

/-! ## Options sub-grammar (C6, C10) -/

theorem tokenize_options_malformed (s : String)
    (h : ¬(s.data.head? = some '[' ∧ s.data.getLast? = some ']')) :
    tokenize_options s = [] := by
  have h0 : jsAt s.data 0 = s.data.head? := by rw [jsAt, List.get?_zero]
  have h1 : jsAt s.data (s.data.length - 1) = s.data.getLast? := by
    rw [jsAt, List.getLast?_eq_getElem?, List.get?_eq_getElem?]
  have hc : ((jsAt s.data 0 != some '[') || (jsAt s.data (s.data.length - 1) != some ']'))
      = true := by
    rw [Bool.or_eq_true, bne_iff_ne, bne_iff_ne, h0, h1]
    exact not_and_or.mp h
  simp only [tokenize_options]
  rw [hc]
  simp

theorem tokenize_table_malformed (l : String) (rest : List String)
    (hs : jsStartsWith l "[" = true) (hl : l.data.getLast? ≠ some ']') :
    (tokenize_table (l :: rest)).1.name = "table"
    ∧ (tokenize_table (l :: rest)).1.attrs = []
    ∧ (tokenize_table (l :: rest)).2.length ≤ rest.length := by
  have hopt : tokenize_options l = [] :=
    tokenize_options_malformed l (fun hb => hl hb.2)
  simp only [tokenize_table, hs, if_pos, hopt]
  refine ⟨rfl, rfl, ?_⟩
  rcases rest with _ | ⟨x, r'⟩
  · simp [tableRows]
  · by_cases hx : x = "|==="
    · have h2 := tableRows_len_le r'
      simp only [hx, if_pos, List.length_tail, List.length_cons]
      omega
    · have h2 := tableRows_len_le r'
      simp only [if_neg hx, tableRows_cons_ne x r' hx, List.length_tail, List.length_cons]
      omega

/-- C6: an options input that does not both begin with `[` and end with `]`
parses to the empty mapping without failing, and the surrounding table parse
continues: the table node is still produced (with an empty attribute
mapping), and line consumption still advances past the options line. -/
theorem C6_options_malformed :
    (∀ s : String, ¬(s.data.head? = some '[' ∧ s.data.getLast? = some ']') →
      tokenize_options s = [])
    ∧ (∀ (l : String) (rest : List String),
        jsStartsWith l "[" = true → l.data.getLast? ≠ some ']' →
          (tokenize_table (l :: rest)).1.name = "table"
          ∧ (tokenize_table (l :: rest)).1.attrs = []
          ∧ (tokenize_table (l :: rest)).2.length ≤ rest.length) :=
  ⟨tokenize_options_malformed, tokenize_table_malformed⟩

/-- Witness for C6 at concrete inputs: a `[`-opened line without the closing
bracket yields the empty mapping, and the table around it still parses. -/
theorem C6_options_malformed_witness :
    tokenize_options "[broken" = []
    ∧ ((tokenize_table ("[broken" :: ["|===", "|a|b", "|==="])).1.name = "table"
        ∧ (tokenize_table ("[broken" :: ["|===", "|a|b", "|==="])).1.attrs = []
        ∧ (tokenize_table ("[broken" :: ["|===", "|a|b", "|==="])).2.length ≤ 3) :=
  ⟨C6_options_malformed.1 "[broken" (by decide),
    C6_options_malformed.2 "[broken" ["|===", "|a|b", "|==="] (by decide) (by decide)⟩

/-- The key `"boolean"` is bound in the mapping. -/
def hasBool (o : Opts) : Prop := ∃ v, ("boolean", v) ∈ o

theorem optSet_hasBool (o : Opts) (k v : String) (h : hasBool o) : hasBool (optSet o k v) := by
  rcases h with ⟨w, hw⟩
  unfold optSet
  split
  · by_cases hk : "boolean" = k
    · subst hk
      refine ⟨v, ?_⟩
      have hmem :=
        List.mem_map_of_mem (fun p => if p.1 = "boolean" then ("boolean", v) else p) hw
      simpa using hmem
    · refine ⟨w, ?_⟩
      have hmem := List.mem_map_of_mem (fun p => if p.1 = k then (k, v) else p) hw
      simpa [hk] using hmem
  · exact ⟨w, List.mem_append_left _ hw⟩

theorem boolAppend_hasBool (o : Opts) (s : String) (h : hasBool o) :
    hasBool (boolAppend o s) :=
  optSet_hasBool o _ _ h

theorem keyLoopF_hasBool (cs : List Char) :
    ∀ (f : Nat) (i : Nat) (key : List Char) (o : Opts), hasBool o →
      hasBool (keyLoopF f cs i key o).2.2 := by
  intro f
  induction f with
  | zero => intro i key o h; exact h
  | succ f ih =>
    intro i key o h
    rw [keyLoopF]
    split
    · split
      · split
        · exact ih _ _ _ (boolAppend_hasBool o _ h)
        · exact ih _ _ _ h
      · exact ih _ _ _ h
    · exact h

theorem optLoopF_hasBool (cs : List Char) :
    ∀ (f : Nat) (i : Nat) (o : Opts), hasBool o → hasBool (optLoopF f cs i o) := by
  intro f
  induction f with
  | zero => intro i o h; exact h
  | succ f ih =>
    intro i o h
    rw [optLoopF]
    split
    · have h2 := keyLoopF_hasBool cs (cs.length + 1) (skipSpacesF (cs.length + 1) cs i) [] o h
      refine ih _ _ ?_
      split <;> split
      · exact optSet_hasBool _ _ _ h2
      · exact boolAppend_hasBool _ _ h2
      · exact optSet_hasBool _ _ _ h2
      · exact boolAppend_hasBool _ _ h2
    · exact h

/-- C10: for every well-formed options input (framed by `[` and `]`) the
returned mapping binds the key `"boolean"` — it is initialized to the empty
string before the entry loop and no loop step removes it — so a successful
parse never returns the empty mapping, unlike the malformed-input case. -/
theorem C10_options_boolean (s : String) (h1 : s.data.head? = some '[')
    (h2 : s.data.getLast? = some ']') :
    (∃ v, ("boolean", v) ∈ tokenize_options s) ∧ tokenize_options s ≠ [] := by
  have h0 : jsAt s.data 0 = s.data.head? := by rw [jsAt, List.get?_zero]
  have h1' : jsAt s.data (s.data.length - 1) = s.data.getLast? := by
    rw [jsAt, List.getLast?_eq_getElem?, List.get?_eq_getElem?]
  have hc : ((jsAt s.data 0 != some '[') || (jsAt s.data (s.data.length - 1) != some ']'))
      = false := by
    rw [Bool.or_eq_false_iff, bne_eq_false_iff_eq, bne_eq_false_iff_eq, h0, h1']
    exact ⟨h1, h2⟩
  have hres : tokenize_options s
      = optLoopF (s.data.length + 1) s.data 1 [("boolean", "")] := by
    simp only [tokenize_options]
    rw [hc]
    simp
  have hb : hasBool (tokenize_options s) := by
    rw [hres]
    exact optLoopF_hasBool s.data (s.data.length + 1) 1 [("boolean", "")] ⟨"", by simp⟩
  rcases hb with ⟨v, hv⟩
  refine ⟨⟨v, hv⟩, ?_⟩
  intro hnil
  rw [hnil] at hv
  simp at hv

/-- Witness for C10 at a concrete input. -/
theorem C10_options_boolean_witness :
    (∃ v, ("boolean", v) ∈ tokenize_options "[a=1, flag]")
    ∧ tokenize_options "[a=1, flag]" ≠ [] :=
  C10_options_boolean "[a=1, flag]" (by decide) (by decide)
